import Mathlib

set_option maxRecDepth 100000

/-! Verification of the 2PSUDOKU race engine

A shallow embedding, in Lean 4, of the core of the 2PSUDOKU repository:
the Sudoku puzzle engine (`game/sudoku.py`, `game/sudoku_logic.py`) and the
race-session operations of the WebSocket consumer (`game/consumers.py`).

Boards are embedded as flat row-major lists of 81 natural numbers
(`0` = empty cell, `1`–`9` = digits); cell `(row, col)` lives at index
`9 * row + col`.  Reading out of range yields `0`, mirroring the fact that
the Python code only ever touches indices `0..80` of well-formed 9×9 grids.
Timestamps are embedded as natural numbers ("seconds"); `timezone.now()`
becomes an explicit `now` argument.
-/

/-- A Sudoku board: flat row-major list of cells, `0` = empty. -/
abbrev Board := List Nat

/-- Read cell `i` (out-of-range reads give `0`). -/
def getCell (b : Board) (i : Nat) : Nat := b.getD i 0

/-- Read cell `(r, c)` of a 9×9 board. -/
def getRC (b : Board) (r c : Nat) : Nat := getCell b (9 * r + c)

/-- Write value `v` into cell `i` (out-of-range writes are no-ops,
like `List.set`). -/
def setCell (b : Board) (i v : Nat) : Board := b.set i v

/-- Embeds `num in self.board[row]` of `SudokuPuzzle._is_valid_move`. -/
def inRow (b : Board) (r v : Nat) : Bool :=
  (List.range 9).any fun c => getRC b r c == v

/-- Embeds `num in [self.board[r][col] for r in range(9)]` of `_is_valid_move`. -/
def inCol (b : Board) (c v : Nat) : Bool :=
  (List.range 9).any fun r => getRC b r c == v

/-- The 3×3-box scan of `_is_valid_move`: cells
`(3*(r/3) + k/3, 3*(c/3) + k%3)` for `k < 9` enumerate exactly the two
nested `for` loops over the box containing `(r, c)`. -/
def inBox (b : Board) (r c v : Nat) : Bool :=
  (List.range 9).any fun k => getRC b (3 * (r / 3) + k / 3) (3 * (c / 3) + k % 3) == v

/-- Embeds `SudokuPuzzle._is_valid_move(row, col, num)`: `num` occurs nowhere in
the row, the column, or the box — the cell `(row, col)` itself is *not*
excluded from the scan. -/
def is_valid_move (b : Board) (r c v : Nat) : Bool :=
  !inRow b r v && !inCol b c v && !inBox b r c v

/-- Embeds `SudokuPuzzle.is_valid_placement(row, col, num)`: bounds check, range
check `1 <= num <= 9`, then `_is_valid_move`.  (The Python `0 <= row` half
of the bounds check is vacuous over `Nat`.) -/
def is_valid_placement (b : Board) (r c v : Nat) : Bool :=
  decide (r < 9) && decide (c < 9) && decide (1 ≤ v) && decide (v ≤ 9) && is_valid_move b r c v

/-- The "all cells are filled" loop (`for row in self.board: if 0 in row`). -/
def allFilled (b : Board) : Bool :=
  (List.range 81).all fun i => !(getCell b i == 0)

/-- Row `r` of the board as a list (`self.board[row]`). -/
def rowList (b : Board) (r : Nat) : List Nat :=
  (List.range 9).map fun c => getRC b r c

/-- Column `c` of the board as a list. -/
def colList (b : Board) (c : Nat) : List Nat :=
  (List.range 9).map fun r => getRC b r c

/-- The 3×3 box with top-left corner `(br, bc)` as a list; index `k < 9`
encodes the nested loops as `(br + k/3, bc + k%3)`. -/
def boxList (b : Board) (br bc : Nat) : List Nat :=
  (List.range 9).map fun k => getRC b (br + k / 3) (bc + k % 3)

/-- Embeds `set(range(1, 10))` of `_is_valid_solution`. -/
def nineSet : Finset Nat := ((List.range 9).map (· + 1)).toFinset

/-- Embeds `SudokuPuzzle._is_valid_solution`: every row, column and 3×3 box is,
as a set, exactly `{1, …, 9}`. -/
def is_valid_solution (b : Board) : Bool :=
  ((List.range 9).all fun r => decide ((rowList b r).toFinset = nineSet)) &&
  ((List.range 9).all fun c => decide ((colList b c).toFinset = nineSet)) &&
  ((List.range 3).all fun i => (List.range 3).all fun j =>
    decide ((boxList b (3 * i) (3 * j)).toFinset = nineSet))

/-- Embeds `SudokuPuzzle.is_complete`: all cells filled and `_is_valid_solution`. -/
def is_complete (b : Board) : Bool :=
  allFilled b && is_valid_solution b

/-- Embeds `SudokuPuzzle.matches_solution` on a puzzle built by
`SudokuPuzzle.from_dict({'board': b, 'solution': sol})`: with no stored
solution (`None`, embedded as `none`, or the falsy empty list `[]`) it
falls back to `is_complete`; otherwise all cells must be filled and equal
to the solution cell-by-cell. -/
def matches_solution (b : Board) (sol : Option Board) : Bool :=
  match sol with
  | none => is_complete b
  | some s =>
    if s.isEmpty then is_complete b
    else allFilled b && ((List.range 81).all fun i => getCell b i == getCell s i)

/-- Embeds `SudokuPuzzle.from_dict`: missing `'board'` defaults to the all-zero
grid, `puzzle.solution` is the optional `'solution'` entry. -/
def from_dict (board? : Option Board) (sol? : Option Board) : Board × Option Board :=
  (board?.getD (List.replicate 81 0), sol?)

/-- Embeds `sudoku_logic.check_board_correct`: every *filled* cell of `board`
must agree with `solution`; empty cells are skipped. -/
def check_board_correct (board solution : Board) : Bool :=
  (List.range 81).all fun i => (getCell board i == 0) || (getCell board i == getCell solution i)

/-- Embeds `sudoku_logic.is_board_complete`: no zeros anywhere. -/
def is_board_complete (board : Board) : Bool :=
  (List.range 81).all fun i => !(getCell board i == 0)

/-- The empty 9×9 grid (`[[0]*9 for _ in range(9)]`). -/
def emptyBoard : Board := List.replicate 81 0

/-! Section: The randomized backtracking generator

`SudokuPuzzle._generate_full_solution` rescans the grid in row-major order
for the first empty cell, tries the digits `1..9` in a freshly shuffled
order, places a digit if `_is_valid_move` accepts it, recurses, and
un-places on failure.  The random shuffles are embedded as a stream
`rand : Nat → List Nat` of candidate lists together with a counter `t`
giving the index of the next shuffle to consume; the recursion is driven
by a fuel argument that strictly exceeds the number of empty cells (the
recursion depth of the Python function), so the fuel never runs out on the
calls the Python code performs.  The result is the solved board (`None`
encodes the Python `False` return, after which all placements have been
undone) together with the next unconsumed shuffle index. -/

/-- First empty cell in row-major order, if any. -/
def firstEmpty (b : Board) : Option Nat :=
  (List.range 81).find? fun i => getCell b i == 0

/-- The `for num in numbers:` loop of `_generate_full_solution`: try each
candidate in order at empty cell `i`; on a recursive failure, move on to
the next candidate (the cell is back to `0` since `step` works on a copy
of the board value).  `step` is the recursive solver at one fuel less. -/
def tryCands (step : Nat → Board → Option Board × Nat) (b : Board) (i : Nat) :
    List Nat → Nat → Option Board × Nat
  | [], t => (none, t)
  | v :: vs, t =>
    if is_valid_move b (i / 9) (i % 9) v then
      match step t (setCell b i v) with
      | (some b', t') => (some b', t')
      | (none, t') => tryCands step b i vs t'
    else tryCands step b i vs t

/-- Embeds `_generate_full_solution`, fuelled.  At each call: no empty cell left
means success; otherwise consume the next shuffle `rand t` and try its
candidates at the first empty cell. -/
def solveAux (rand : Nat → List Nat) : Nat → Nat → Board → Option Board × Nat
  | 0, t, _ => (none, t)
  | fuel + 1, t, b =>
    match firstEmpty b with
    | none => (some b, t)
    | some i => tryCands (solveAux rand fuel) b i (rand t) (t + 1)

/-- Embeds `SudokuPuzzle._generate_full_solution` started from the empty grid:
81 empty cells, so fuel 82 covers the full recursion depth. -/
def generate_full_solution (rand : Nat → List Nat) (t : Nat) : Option Board × Nat :=
  solveAux rand 82 t emptyBoard

/-- Embeds `SudokuPuzzle._remove_cells`, with the randomness made explicit: the
Python loop keeps drawing random cells until it has cleared the required
number of non-empty ones; `positions` is the list of cells it actually
clears (clearing an already-empty cell is a no-op, so this also covers
the skipped draws). -/
def remove_cells (positions : List Nat) (b : Board) : Board :=
  match positions with
  | [] => b
  | p :: ps => remove_cells ps (setCell b p 0)

/-- Embeds `SudokuPuzzle.generate_puzzle`: produce a full solution from the empty
grid (the Python code ignores the recursive Boolean and reads the board,
which is restored to empty on failure), store it, and clear cells to make
the clue grid. -/
def generate_puzzle (rand : Nat → List Nat) (positions : List Nat) : Board × Board :=
  let sol := match (generate_full_solution rand 0).1 with
    | some b => b
    | none => emptyBoard
  (remove_cells positions sol, sol)

/-! Section: Validity predicates used by the proofs -/

/-- Flat indices `i` and `j` lie in a common row, column, or 3×3 box. -/
def sameUnit (i j : Nat) : Prop :=
  i / 9 = j / 9 ∨ i % 9 = j % 9 ∨ ((i / 9) / 3 = (j / 9) / 3 ∧ (i % 9) / 3 = (j % 9) / 3)

instance (i j : Nat) : Decidable (sameUnit i j) := by
  unfold sameUnit; infer_instance

/-- No two distinct filled cells of a common unit hold the same digit. -/
def conflictFree (b : Board) : Prop :=
  ∀ i, i < 81 → ∀ j, j < 81 → i ≠ j → sameUnit i j → getCell b i ≠ 0 → getCell b i ≠ getCell b j

instance (b : Board) : Decidable (conflictFree b) :=
  decidable_of_iff
    (∀ i ∈ Finset.range 81, ∀ j ∈ Finset.range 81,
      i ≠ j → sameUnit i j → getCell b i ≠ 0 → getCell b i ≠ getCell b j)
    (by simp [conflictFree, Finset.mem_range])

/-- All cells hold digits `≤ 9`. -/
def inRangeB (b : Board) : Prop := ∀ i, i < 81 → getCell b i ≤ 9

/-- All 81 cells are non-empty. -/
def filledAll (b : Board) : Prop := ∀ i, i < 81 → getCell b i ≠ 0

/-- Board `E` agrees with `b` on every filled cell of `b`. -/
def extendsB (b E : Board) : Prop := ∀ i, i < 81 → getCell b i ≠ 0 → getCell E i = getCell b i

/-- Well-formed board: 81 cells, conflict-free, digits in range. -/
def WFB (b : Board) : Prop := b.length = 81 ∧ conflictFree b ∧ inRangeB b

/-- Number of empty cells. -/
def emptyCount (b : Board) : Nat :=
  ((Finset.range 81).filter fun i => getCell b i = 0).card

/-- The digit list `[1, …, 9]` that every shuffle permutes. -/
def perm9 : List Nat := [1, 2, 3, 4, 5, 6, 7, 8, 9]

instance (b : Board) : Decidable (inRangeB b) :=
  decidable_of_iff (∀ i ∈ Finset.range 81, getCell b i ≤ 9)
    (by simp [inRangeB, Finset.mem_range])

instance (b : Board) : Decidable (filledAll b) :=
  decidable_of_iff (∀ i ∈ Finset.range 81, getCell b i ≠ 0)
    (by simp [filledAll, Finset.mem_range])

instance (b E : Board) : Decidable (extendsB b E) :=
  decidable_of_iff (∀ i ∈ Finset.range 81, getCell b i ≠ 0 → getCell E i = getCell b i)
    (by simp [extendsB, Finset.mem_range])

instance (b : Board) : Decidable (WFB b) := by
  unfold WFB
  infer_instance

/-! Section: Basic cell lemmas -/

lemma length_setCell (b : Board) (i v : Nat) : (setCell b i v).length = b.length :=
  List.length_set ..

lemma getCell_setCell_self (b : Board) (i v : Nat) (h : i < b.length) :
    getCell (setCell b i v) i = v := by
  simp [getCell, setCell, List.getD_eq_getElem?_getD, List.getElem?_set_self, h]

lemma getCell_setCell_ne (b : Board) (i j v : Nat) (h : i ≠ j) :
    getCell (setCell b i v) j = getCell b j := by
  simp [getCell, setCell, List.getD_eq_getElem?_getD, List.getElem?_set_ne h]

lemma getRC_flat (b : Board) (i : Nat) : getRC b (i / 9) (i % 9) = getCell b i := by
  unfold getRC
  congr 1
  omega

lemma firstEmpty_none {b : Board} (h : firstEmpty b = none) : filledAll b := by
  intro i hi
  have := List.find?_eq_none.mp h i (List.mem_range.mpr hi)
  simpa using this

lemma firstEmpty_some {b : Board} {i : Nat} (h : firstEmpty b = some i) :
    i < 81 ∧ getCell b i = 0 := by
  refine ⟨List.mem_range.mp (List.mem_of_find?_eq_some h), ?_⟩
  simpa using List.find?_some h

lemma inRow_iff (b : Board) (r v : Nat) :
    inRow b r v = true ↔ ∃ c, c < 9 ∧ getRC b r c = v := by
  simp [inRow, List.any_eq_true, List.mem_range]

lemma inCol_iff (b : Board) (c v : Nat) :
    inCol b c v = true ↔ ∃ r, r < 9 ∧ getRC b r c = v := by
  simp [inCol, List.any_eq_true, List.mem_range]

lemma inBox_iff (b : Board) (r c v : Nat) :
    inBox b r c v = true ↔
      ∃ k, k < 9 ∧ getRC b (3 * (r / 3) + k / 3) (3 * (c / 3) + k % 3) = v := by
  simp [inBox, List.any_eq_true, List.mem_range]

lemma is_valid_move_eq_true {b : Board} {r c v : Nat} :
    is_valid_move b r c v = true ↔
      inRow b r v = false ∧ inCol b c v = false ∧ inBox b r c v = false := by
  simp [is_valid_move, Bool.and_eq_true, Bool.not_eq_true', and_assoc]

/-- A successful `_is_valid_move` at cell `i` means the digit occurs nowhere
in the cell's row, column, or box — including at `i` itself. -/
lemma is_valid_move_flat {b : Board} {i v : Nat} (hi : i < 81)
    (hv : is_valid_move b (i / 9) (i % 9) v = true) :
    ∀ j, j < 81 → sameUnit i j → getCell b j ≠ v := by
  rcases is_valid_move_eq_true.mp hv with ⟨hrow, hcol, hbox⟩
  intro j hj hu hval
  rcases hu with hr | hc | ⟨hbr, hbc⟩
  · have : inRow b (i / 9) v = true := by
      rw [inRow_iff]
      refine ⟨j % 9, by omega, ?_⟩
      rw [show getRC b (i / 9) (j % 9) = getCell b j from ?_]
      · exact hval
      · unfold getRC getCell
        congr 1
        omega
    simp [this] at hrow
  · have : inCol b (i % 9) v = true := by
      rw [inCol_iff]
      refine ⟨j / 9, by omega, ?_⟩
      rw [show getRC b (j / 9) (i % 9) = getCell b j from ?_]
      · exact hval
      · unfold getRC getCell
        congr 1
        omega
    simp [this] at hcol
  · have : inBox b (i / 9) (i % 9) v = true := by
      rw [inBox_iff]
      refine ⟨3 * (j / 9 % 3) + j % 9 % 3, by omega, ?_⟩
      rw [show getRC b (3 * (i / 9 / 3) + (3 * (j / 9 % 3) + j % 9 % 3) / 3)
            (3 * (i % 9 / 3) + (3 * (j / 9 % 3) + j % 9 % 3) % 3) = getCell b j from ?_]
      · exact hval
      · unfold getRC getCell
        congr 1
        omega
    simp [this] at hbox

/-- Trying to place `0` at an empty cell always fails: the cell itself is
scanned by the row check and holds `0`. -/
lemma is_valid_move_zero {b : Board} {i : Nat} (hi : i < 81) (h0 : getCell b i = 0) :
    is_valid_move b (i / 9) (i % 9) 0 = false := by
  have hrow : inRow b (i / 9) 0 = true := by
    rw [inRow_iff]
    refine ⟨i % 9, by omega, ?_⟩
    rw [getRC_flat]
    exact h0
  simp [is_valid_move, hrow]

lemma is_valid_move_nonzero {b : Board} {i v : Nat} (hi : i < 81) (h0 : getCell b i = 0)
    (hv : is_valid_move b (i / 9) (i % 9) v = true) : v ≠ 0 := by
  rintro rfl
  rw [is_valid_move_zero hi h0] at hv
  exact Bool.false_ne_true hv

lemma sameUnit_symm {i j : Nat} (h : sameUnit i j) : sameUnit j i := by
  unfold sameUnit at *
  omega

/-- Placing a `_is_valid_move`-validated digit at an empty cell keeps the
board conflict-free. -/
lemma conflictFree_setCell {b : Board} {i v : Nat} (hlen : b.length = 81)
    (hcf : conflictFree b) (hi : i < 81) (h0 : getCell b i = 0)
    (hv : is_valid_move b (i / 9) (i % 9) v = true) :
    conflictFree (setCell b i v) := by
  have hflat := is_valid_move_flat hi hv
  intro a ha c hc hac hu hnz
  have hga : ∀ j, j ≠ i → getCell (setCell b i v) j = getCell b j := fun j hj =>
    getCell_setCell_ne b i j v (fun h => hj h.symm)
  have hgi : getCell (setCell b i v) i = v := getCell_setCell_self b i v (by omega)
  by_cases hai : a = i
  · have hci : c ≠ i := fun h => hac (hai.trans h.symm)
    rw [hai, hgi] at hnz ⊢
    rw [hga c hci]
    intro heq
    have hu2 : sameUnit i c := by rw [← hai]; exact hu
    exact hflat c hc hu2 heq.symm
  · rw [hga a hai] at hnz ⊢
    by_cases hci : c = i
    · rw [hci, hgi]
      intro heq
      have hu2 : sameUnit a i := by rw [← hci]; exact hu
      exact hflat a ha (sameUnit_symm hu2) heq
    · rw [hga c hci]
      exact hcf a ha c hc hac hu hnz

lemma inRangeB_setCell {b : Board} {i v : Nat} (hr : inRangeB b) (hv : v ≤ 9) :
    inRangeB (setCell b i v) := by
  intro j hj
  by_cases hij : i = j
  · subst hij
    by_cases hlt : i < b.length
    · rw [getCell_setCell_self b i v hlt]; exact hv
    · unfold setCell at *
      rw [List.set_eq_of_length_le (by omega)]
      exact hr i hj
  · rw [getCell_setCell_ne b i j v hij]
    exact hr j hj

lemma WFB_setCell {b : Board} {i v : Nat} (hw : WFB b) (hi : i < 81)
    (h0 : getCell b i = 0) (hv9 : v ≤ 9)
    (hv : is_valid_move b (i / 9) (i % 9) v = true) : WFB (setCell b i v) := by
  obtain ⟨hlen, hcf, hrg⟩ := hw
  exact ⟨by rw [length_setCell]; exact hlen,
    conflictFree_setCell hlen hcf hi h0 hv, inRangeB_setCell hrg hv9⟩

/-- Clearing one genuinely-empty-before cell by a non-zero write strictly
decreases the number of empty cells. -/
lemma emptyCount_setCell_lt {b : Board} {i v : Nat} (hlen : b.length = 81)
    (hi : i < 81) (h0 : getCell b i = 0) (hv : v ≠ 0) :
    emptyCount (setCell b i v) < emptyCount b := by
  unfold emptyCount
  have hset : ((Finset.range 81).filter fun j => getCell (setCell b i v) j = 0) =
      ((Finset.range 81).filter fun j => getCell b j = 0).erase i := by
    ext j
    simp only [Finset.mem_filter, Finset.mem_erase, Finset.mem_range]
    constructor
    · rintro ⟨hj, hz⟩
      by_cases hij : i = j
      · subst hij
        rw [getCell_setCell_self b i v (by omega)] at hz
        exact absurd hz hv
      · rw [getCell_setCell_ne b i j v hij] at hz
        exact ⟨fun h => hij h.symm, hj, hz⟩
    · rintro ⟨hji, hj, hz⟩
      rw [getCell_setCell_ne b i j v (fun h => hji h.symm)]
      exact ⟨hj, hz⟩
  rw [hset]
  have hmem : i ∈ (Finset.range 81).filter fun j => getCell b j = 0 := by
    simp [Finset.mem_filter, Finset.mem_range, hi, h0]
  rw [Finset.card_erase_of_mem hmem]
  have : 0 < ((Finset.range 81).filter fun j => getCell b j = 0).card :=
    Finset.card_pos.mpr ⟨i, hmem⟩
  omega

/-! Section: Soundness of the backtracking generator: a successful run yields a
completely filled, conflict-free board extending the starting board. -/

lemma extendsB_through_set {b E : Board} {i v : Nat} (h0 : getCell b i = 0)
    (hext : extendsB (setCell b i v) E) : extendsB b E := by
  intro j hj hnz
  have hne : i ≠ j := by
    rintro rfl
    exact hnz h0
  have h1 : getCell (setCell b i v) j = getCell b j := getCell_setCell_ne b i j v hne
  have := hext j hj (by rw [h1]; exact hnz)
  rw [h1] at this
  exact this

lemma tryCands_sound (step : Nat → Board → Option Board × Nat)
    (hstep : ∀ t b₀ b₁ t₁, WFB b₀ → step t b₀ = (some b₁, t₁) →
      WFB b₁ ∧ filledAll b₁ ∧ extendsB b₀ b₁)
    {b : Board} {i : Nat} (hw : WFB b) (hi : i < 81) (h0 : getCell b i = 0) :
    ∀ l t b₁ t₁, (∀ v ∈ l, v ≤ 9) → tryCands step b i l t = (some b₁, t₁) →
      WFB b₁ ∧ filledAll b₁ ∧ extendsB b b₁ := by
  intro l
  induction l with
  | nil =>
    intro t b₁ t₁ _ h
    simp [tryCands] at h
  | cons v vs ih =>
    intro t b₁ t₁ hle h
    simp only [tryCands] at h
    by_cases hvm : is_valid_move b (i / 9) (i % 9) v = true
    · rw [if_pos hvm] at h
      cases hst : step t (setCell b i v) with
      | mk ob t₂ =>
        rw [hst] at h
        cases ob with
        | some b₂ =>
          simp only at h
          obtain ⟨hb, ht⟩ := Prod.mk.injEq .. ▸ h
          have hbb : b₂ = b₁ := by injection hb
          have hwfset : WFB (setCell b i v) :=
            WFB_setCell hw hi h0 (hle v (List.mem_cons_self v vs)) hvm
          have hres := hstep t (setCell b i v) b₂ t₂ hwfset hst
          rw [hbb] at hres
          obtain ⟨hw₁, hf₁, hext₁⟩ := hres
          exact ⟨hw₁, hf₁, extendsB_through_set h0 hext₁⟩
        | none =>
          simp only at h
          exact ih t₂ b₁ t₁ (fun u hu => hle u (List.mem_cons_of_mem v hu)) h
    · rw [if_neg hvm] at h
      exact ih t b₁ t₁ (fun u hu => hle u (List.mem_cons_of_mem v hu)) h

theorem solveAux_sound (rand : Nat → List Nat) (hr : ∀ t v, v ∈ rand t → v ≤ 9) :
    ∀ fuel t b b₁ t₁, WFB b → solveAux rand fuel t b = (some b₁, t₁) →
      WFB b₁ ∧ filledAll b₁ ∧ extendsB b b₁ := by
  intro fuel
  induction fuel with
  | zero =>
    intro t b b₁ t₁ _ h
    simp [solveAux] at h
  | succ fuel ih =>
    intro t b b₁ t₁ hw h
    simp only [solveAux] at h
    cases hfe : firstEmpty b with
    | none =>
      rw [hfe] at h
      simp only at h
      obtain ⟨hb, ht⟩ := Prod.mk.injEq .. ▸ h
      obtain rfl : b = b₁ := Option.some.injEq .. ▸ hb
      exact ⟨hw, firstEmpty_none hfe, fun j hj _ => rfl⟩
    | some i =>
      rw [hfe] at h
      simp only at h
      obtain ⟨hi, h0⟩ := firstEmpty_some hfe
      exact tryCands_sound (solveAux rand fuel) (fun t' b₀ b₂ t₂ => ih t' b₀ b₂ t₂)
        hw hi h0 (rand t) (t + 1) b₁ t₁ (fun v hv => hr t v hv) h

/-! Section: Completeness of the backtracking generator: whenever the current
board has a full conflict-free completion, the search succeeds — for every
stream of shuffles, since each shuffle is a permutation of `1..9` and thus
contains the completion's digit for the cell under scrutiny. -/

lemma extendsB_setCell {b E : Board} {i v : Nat} (hlen : b.length = 81) (hi : i < 81)
    (hext : extendsB b E) (h0 : getCell b i = 0) (hEi : getCell E i = v) :
    extendsB (setCell b i v) E := by
  intro j hj hnz
  by_cases hij : i = j
  · rw [← hij] at hnz ⊢
    rw [getCell_setCell_self b i v (by omega)] at hnz ⊢
    exact hEi
  · rw [getCell_setCell_ne b i j v hij] at hnz ⊢
    exact hext j hj hnz

lemma mem_perm9 {v : Nat} (h1 : 1 ≤ v) (h9 : v ≤ 9) : v ∈ perm9 := by
  simp [perm9]
  omega

/-- At an empty cell, the digit a full conflict-free completion puts there
is always accepted by `_is_valid_move`. -/
lemma extends_is_valid_move {b E : Board} {i : Nat} (hE : WFB E) (hfE : filledAll E)
    (hext : extendsB b E) (hi : i < 81) (h0 : getCell b i = 0) :
    is_valid_move b (i / 9) (i % 9) (getCell E i) = true := by
  obtain ⟨hElen, hEcf, hErg⟩ := hE
  have hvne : getCell E i ≠ 0 := hfE i hi
  rw [is_valid_move_eq_true]
  refine ⟨?_, ?_, ?_⟩
  · cases hcase : inRow b (i / 9) (getCell E i) with
    | false => rfl
    | true =>
      exfalso
      obtain ⟨c, hc, hval⟩ := (inRow_iff ..).mp hcase
      have hj : 9 * (i / 9) + c < 81 := by omega
      have hbj : getCell b (9 * (i / 9) + c) = getCell E i := hval
      have hbnz : getCell b (9 * (i / 9) + c) ≠ 0 := by rw [hbj]; exact hvne
      have hEj : getCell E (9 * (i / 9) + c) = getCell E i := by
        rw [hext (9 * (i / 9) + c) hj hbnz]; exact hbj
      have hne : i ≠ 9 * (i / 9) + c := by
        rintro heq
        rw [← heq] at hbnz
        exact hbnz h0
      have hsu : sameUnit i (9 * (i / 9) + c) := by
        unfold sameUnit
        omega
      exact hEcf i hi (9 * (i / 9) + c) hj hne hsu hvne hEj.symm
  · cases hcase : inCol b (i % 9) (getCell E i) with
    | false => rfl
    | true =>
      exfalso
      obtain ⟨r, hr, hval⟩ := (inCol_iff ..).mp hcase
      have hj : 9 * r + i % 9 < 81 := by omega
      have hbj : getCell b (9 * r + i % 9) = getCell E i := hval
      have hbnz : getCell b (9 * r + i % 9) ≠ 0 := by rw [hbj]; exact hvne
      have hEj : getCell E (9 * r + i % 9) = getCell E i := by
        rw [hext (9 * r + i % 9) hj hbnz]; exact hbj
      have hne : i ≠ 9 * r + i % 9 := by
        rintro heq
        rw [← heq] at hbnz
        exact hbnz h0
      have hsu : sameUnit i (9 * r + i % 9) := by
        unfold sameUnit
        omega
      exact hEcf i hi (9 * r + i % 9) hj hne hsu hvne hEj.symm
  · cases hcase : inBox b (i / 9) (i % 9) (getCell E i) with
    | false => rfl
    | true =>
      exfalso
      obtain ⟨k, hk, hval⟩ := (inBox_iff ..).mp hcase
      have hj : 9 * (3 * (i / 9 / 3) + k / 3) + (3 * (i % 9 / 3) + k % 3) < 81 := by omega
      have hbj : getCell b (9 * (3 * (i / 9 / 3) + k / 3) + (3 * (i % 9 / 3) + k % 3)) =
          getCell E i := hval
      have hbnz : getCell b (9 * (3 * (i / 9 / 3) + k / 3) + (3 * (i % 9 / 3) + k % 3)) ≠ 0 := by
        rw [hbj]; exact hvne
      have hEj : getCell E (9 * (3 * (i / 9 / 3) + k / 3) + (3 * (i % 9 / 3) + k % 3)) =
          getCell E i := by
        rw [hext _ hj hbnz]; exact hbj
      have hne : i ≠ 9 * (3 * (i / 9 / 3) + k / 3) + (3 * (i % 9 / 3) + k % 3) := by
        rintro heq
        rw [← heq] at hbnz
        exact hbnz h0
      have hsu : sameUnit i (9 * (3 * (i / 9 / 3) + k / 3) + (3 * (i % 9 / 3) + k % 3)) := by
        unfold sameUnit
        omega
      exact hEcf i hi _ hj hne hsu hvne hEj.symm

lemma tryCands_complete (step : Nat → Board → Option Board × Nat) {b : Board} {i v : Nat}
    (hvm : is_valid_move b (i / 9) (i % 9) v = true)
    (hsucc : ∀ t', (step t' (setCell b i v)).1.isSome) :
    ∀ l t, v ∈ l → (tryCands step b i l t).1.isSome := by
  intro l
  induction l with
  | nil =>
    intro t hmem
    exact absurd hmem (List.not_mem_nil v)
  | cons u us ih =>
    intro t hmem
    simp only [tryCands]
    by_cases hu : is_valid_move b (i / 9) (i % 9) u = true
    · rw [if_pos hu]
      cases hst : step t (setCell b i u) with
      | mk ob t₂ =>
        cases ob with
        | some b₂ => simp
        | none =>
          simp only
          rcases List.mem_cons.mp hmem with rfl | hmem'
          · have hsome := hsucc t
            rw [hst] at hsome
            simp at hsome
          · exact ih t₂ hmem'
    · rw [if_neg hu]
      rcases List.mem_cons.mp hmem with rfl | hmem'
      · exact absurd hvm hu
      · exact ih t hmem'

theorem solveAux_complete (rand : Nat → List Nat) (hr : ∀ t, (rand t).Perm perm9) :
    ∀ fuel b, b.length = 81 → emptyCount b < fuel →
      ∀ E, WFB E → filledAll E → extendsB b E →
      ∀ t, (solveAux rand fuel t b).1.isSome := by
  intro fuel
  induction fuel with
  | zero =>
    intro b _ hcnt
    exact absurd hcnt (Nat.not_lt_zero _)
  | succ fuel ih =>
    intro b hlen hcnt E hE hfE hext t
    simp only [solveAux]
    cases hfe : firstEmpty b with
    | none => simp
    | some i =>
      simp only
      obtain ⟨hi, h0⟩ := firstEmpty_some hfe
      have hv9 : getCell E i ≤ 9 := hE.2.2 i hi
      have hvne : getCell E i ≠ 0 := hfE i hi
      have hmem : getCell E i ∈ rand t := (hr t).mem_iff.mpr (mem_perm9 (by omega) hv9)
      have hvm := extends_is_valid_move hE hfE hext hi h0
      refine tryCands_complete _ hvm ?_ (rand t) (t + 1) hmem
      intro t'
      refine ih (setCell b i (getCell E i)) (by rw [length_setCell]; exact hlen) ?_
        E hE hfE (extendsB_setCell hlen hi hext h0 rfl) t'
      have := emptyCount_setCell_lt hlen hi h0 hvne
      omega

/-! Section: A filled conflict-free board passes `_is_valid_solution` -/

lemma nineSet_eq_Icc : nineSet = Finset.Icc 1 9 := by decide

lemma toFinset_eq_nineSet {l : List Nat} (hlen : l.length = 9) (hnd : l.Nodup)
    (hsub : ∀ x ∈ l, 1 ≤ x ∧ x ≤ 9) : l.toFinset = nineSet := by
  rw [nineSet_eq_Icc]
  apply Finset.eq_of_subset_of_card_le
  · intro x hx
    rw [List.mem_toFinset] at hx
    exact Finset.mem_Icc.mpr (hsub x hx)
  · rw [Nat.card_Icc, List.toFinset_card_of_nodup hnd, hlen]

/-- Generic unit lemma: 9 pairwise same-unit, pairwise distinct cells of a
filled, conflict-free, in-range board carry the digit set `{1, …, 9}`. -/
lemma unit_toFinset_eq_nineSet {b : Board} (hw : WFB b) (hf : filledAll b)
    (f : Nat → Nat)
    (hlt : ∀ k, k < 9 → f k < 81)
    (hinj : ∀ k₁, k₁ < 9 → ∀ k₂, k₂ < 9 → f k₁ = f k₂ → k₁ = k₂)
    (hsu : ∀ k₁, k₁ < 9 → ∀ k₂, k₂ < 9 → sameUnit (f k₁) (f k₂)) :
    ((List.range 9).map fun k => getCell b (f k)).toFinset = nineSet := by
  obtain ⟨hlen, hcf, hrg⟩ := hw
  apply toFinset_eq_nineSet
  · rw [List.length_map, List.length_range]
  · refine List.Nodup.map_on ?_ (List.nodup_range 9)
    intro k₁ hk₁ k₂ hk₂ hval
    rw [List.mem_range] at hk₁ hk₂
    by_contra hne
    have hfne : f k₁ ≠ f k₂ := fun h => hne (hinj k₁ hk₁ k₂ hk₂ h)
    exact hcf (f k₁) (hlt k₁ hk₁) (f k₂) (hlt k₂ hk₂) hfne (hsu k₁ hk₁ k₂ hk₂)
      (hf (f k₁) (hlt k₁ hk₁)) hval
  · intro x hx
    rw [List.mem_map] at hx
    obtain ⟨k, hk, rfl⟩ := hx
    rw [List.mem_range] at hk
    exact ⟨Nat.one_le_iff_ne_zero.mpr (hf (f k) (hlt k hk)), hrg (f k) (hlt k hk)⟩

lemma is_valid_solution_of_filled {b : Board} (hw : WFB b) (hf : filledAll b) :
    is_valid_solution b = true := by
  unfold is_valid_solution
  rw [Bool.and_eq_true, Bool.and_eq_true]
  refine ⟨⟨?_, ?_⟩, ?_⟩
  · rw [List.all_eq_true]
    intro r hr
    rw [List.mem_range] at hr
    rw [decide_eq_true_eq]
    have : rowList b r = (List.range 9).map fun c => getCell b (9 * r + c) := rfl
    rw [this]
    apply unit_toFinset_eq_nineSet hw hf
    · intro k hk; omega
    · intro k₁ hk₁ k₂ hk₂ h; omega
    · intro k₁ hk₁ k₂ hk₂
      unfold sameUnit
      omega
  · rw [List.all_eq_true]
    intro c hc
    rw [List.mem_range] at hc
    rw [decide_eq_true_eq]
    have : colList b c = (List.range 9).map fun r => getCell b (9 * r + c) := rfl
    rw [this]
    apply unit_toFinset_eq_nineSet hw hf
    · intro k hk; omega
    · intro k₁ hk₁ k₂ hk₂ h; omega
    · intro k₁ hk₁ k₂ hk₂
      unfold sameUnit
      omega
  · rw [List.all_eq_true]
    intro i hi
    rw [List.mem_range] at hi
    rw [List.all_eq_true]
    intro j hj
    rw [List.mem_range] at hj
    rw [decide_eq_true_eq]
    have : boxList b (3 * i) (3 * j) =
        (List.range 9).map fun k => getCell b (9 * (3 * i + k / 3) + (3 * j + k % 3)) := rfl
    rw [this]
    apply unit_toFinset_eq_nineSet hw hf
    · intro k hk; omega
    · intro k₁ hk₁ k₂ hk₂ h; omega
    · intro k₁ hk₁ k₂ hk₂
      unfold sameUnit
      omega

lemma allFilled_of_filledAll {b : Board} (hf : filledAll b) : allFilled b = true := by
  rw [allFilled, List.all_eq_true]
  intro i hi
  rw [List.mem_range] at hi
  simpa using hf i hi

/-! Section: Concrete witness grids -/

/-- A concrete complete valid Sudoku grid (the cyclic-shift pattern),
used as the completion witness for the search-completeness argument. -/
def solW : Board :=
  [1, 2, 3, 4, 5, 6, 7, 8, 9,
   4, 5, 6, 7, 8, 9, 1, 2, 3,
   7, 8, 9, 1, 2, 3, 4, 5, 6,
   2, 3, 4, 5, 6, 7, 8, 9, 1,
   5, 6, 7, 8, 9, 1, 2, 3, 4,
   8, 9, 1, 2, 3, 4, 5, 6, 7,
   3, 4, 5, 6, 7, 8, 9, 1, 2,
   6, 7, 8, 9, 1, 2, 3, 4, 5,
   9, 1, 2, 3, 4, 5, 6, 7, 8]

/-- Variant of `solW` with the digits 1 and 2 swapped throughout: a second complete
valid grid, distinct from `solW`. -/
def solW2 : Board :=
  [2, 1, 3, 4, 5, 6, 7, 8, 9,
   4, 5, 6, 7, 8, 9, 2, 1, 3,
   7, 8, 9, 2, 1, 3, 4, 5, 6,
   1, 3, 4, 5, 6, 7, 8, 9, 2,
   5, 6, 7, 8, 9, 2, 1, 3, 4,
   8, 9, 2, 1, 3, 4, 5, 6, 7,
   3, 4, 5, 6, 7, 8, 9, 2, 1,
   6, 7, 8, 9, 2, 1, 3, 4, 5,
   9, 2, 1, 3, 4, 5, 6, 7, 8]

lemma solW_WFB : WFB solW := by decide

lemma solW_filled : filledAll solW := by decide

lemma rand_le9 (rand : Nat → List Nat) (hr : ∀ t, (rand t).Perm perm9) :
    ∀ t v, v ∈ rand t → v ≤ 9 := by
  intro t v hv
  have hvp : v ∈ perm9 := (hr t).mem_iff.mp hv
  simp [perm9] at hvp
  omega

/-- From the empty grid, the backtracking search succeeds for every stream
of shuffles, and its output is completely filled and `_is_valid_solution`. -/
lemma solver_from_empty (rand : Nat → List Nat) (hr : ∀ t, (rand t).Perm perm9) (t₀ : Nat) :
    ∃ b, (solveAux rand 82 t₀ emptyBoard).1 = some b ∧
      filledAll b ∧ is_valid_solution b = true := by
  have hsome := solveAux_complete rand hr 82 emptyBoard (by decide) (by decide)
    solW solW_WFB solW_filled (by decide) t₀
  obtain ⟨b, hb⟩ := Option.isSome_iff_exists.mp hsome
  have hpair : solveAux rand 82 t₀ emptyBoard =
      (some b, (solveAux rand 82 t₀ emptyBoard).2) := by
    rw [← hb]
  obtain ⟨hw', hf', _⟩ := solveAux_sound rand (rand_le9 rand hr) 82 t₀ emptyBoard b
    (solveAux rand 82 t₀ emptyBoard).2 (by decide) hpair
  exact ⟨b, hb, hf', is_valid_solution_of_filled hw' hf'⟩

/-- Cells surviving `_remove_cells` keep their original value. -/
lemma remove_cells_agree : ∀ (ps : List Nat) (b : Board) (i : Nat),
    getCell (remove_cells ps b) i ≠ 0 → getCell (remove_cells ps b) i = getCell b i := by
  intro ps
  induction ps with
  | nil =>
    intro b i _
    rfl
  | cons p ps ih =>
    intro b i hnz
    rw [remove_cells] at hnz ⊢
    have hstep := ih (setCell b p 0) i hnz
    rw [hstep] at hnz ⊢
    by_cases hpi : p = i
    · by_cases hlt : p < b.length
      · rw [hpi] at hlt
        rw [hpi, getCell_setCell_self b i 0 hlt] at hnz
        exact absurd rfl hnz
      · unfold setCell
        rw [List.set_eq_of_length_le (by omega)]
    · exact getCell_setCell_ne b p i 0 hpi

/-! Section: The race-session state and its operations

The session model mirrors the `GameSession` row as used by
`game/consumers.py` (race mode): two optional player ids, a status string
(modelled as an enumeration of the five values the consumer writes), start
and end timestamps, a winner, the board JSON blob (puzzle/clues, optional
stored solution, one independent board per player), and the at-most-one
`GameResult` row attached to the game.  The `GameResult` model class
itself is not under `src/` (the checked-in `models.py` is an older
turn-based variant; the race-mode model is created by migrations absent
from the tree), so its fields are modelled from the spec's RaceResult
description and from the field names used at every creation site in
`consumers.py`; the spec's "at most one RaceResult per session" uniqueness
(enforced in the code by the `IntegrityError` guard) is modelled by
storing it as an `Option` field of the session.  All consumer operations
run inside `transaction.atomic` + `select_for_update` on the session row,
so concurrent invocations serialize; they are embedded as pure functions
on the session state, and concurrent schedules are their sequential
compositions. -/

/-- Status values written by the consumer (`STATUS_CHOICES` of the
race-mode `GameSession`). -/
inductive GStatus
  | waiting
  | ready
  | inProgress
  | finished
  | abandoned
deriving DecidableEq, Repr

/-- One `GameResult` row: winner, optional loser, winner time (seconds),
optional loser time, difficulty, and `result_type`
(`'completion'`/`'forfeit'`; defaults to `'completion'` when not passed). -/
structure GameResult where
  winner : Nat
  loser : Option Nat
  winnerTime : Nat
  loserTime : Option Nat
  difficulty : String
  resultType : String
deriving DecidableEq, Repr

/-- The dictionary returned by `GameConsumer.finalize_result`: winner id,
the winner's time formatted as a minutes/seconds pair (`divmod(sec, 60)`),
and the loser time (`none` prints as "Did not finish"). -/
structure FinishPayload where
  winnerId : Nat
  winnerTime : Nat × Nat
  loserTime : Option Nat
deriving DecidableEq, Repr

/-- Embeds `f"{total//60:02d}:{total%60:02d}"` / `divmod(total, 60)`. -/
def formatMMSS (total : Nat) : Nat × Nat := (total / 60, total % 60)

/-- A race session: the `GameSession` row plus its optional `GameResult`. -/
structure Session where
  player1 : Option Nat
  player2 : Option Nat
  status : GStatus
  startTime : Option Nat
  endTime : Option Nat
  winner : Option Nat
  puzzle : Board
  solution : Option Board
  board1 : Board
  board2 : Board
  difficulty : String
  result : Option GameResult
deriving DecidableEq, Repr

/-- Embeds `GameConsumer.get_player_board`: player 1 gets
`player1_board`, anyone else gets `player2_board`. -/
def get_player_board (s : Session) (uid : Nat) : Board :=
  if s.player1 = some uid then s.board1 else s.board2

/-- Embeds `GameConsumer.update_player_board` (same player dispatch). -/
def update_player_board (s : Session) (uid : Nat) (nb : Board) : Session :=
  if s.player1 = some uid then { s with board1 := nb } else { s with board2 := nb }

/-- Embeds `GameConsumer.finalize_result(game_id, winner_id)`, executed
under the session row lock: determine the loser slot; if a `GameResult`
already exists, return it unchanged (idempotent path) without touching the
session; otherwise compute the winner's elapsed time from `start_time`
(`timedelta(0)` when it is missing), create the result (the
`IntegrityError` re-fetch branch is unreachable once calls are serialized
by the lock), and mark the game finished. -/
def finalize_result (now : Nat) (s : Session) (winnerId : Nat) : Session × FinishPayload :=
  let loser : Option Nat := if s.player1 = some winnerId then s.player2 else s.player1
  match s.result with
  | some existing =>
    (s, { winnerId := existing.winner,
          winnerTime := formatMMSS existing.winnerTime,
          loserTime := existing.loserTime })
  | none =>
    let winnerTime : Nat :=
      match s.startTime with
      | some st => now - st
      | none => 0
    let r : GameResult :=
      { winner := winnerId, loser := loser, winnerTime := winnerTime,
        loserTime := none, difficulty := s.difficulty, resultType := "completion" }
    ({ s with
        result := some r,
        winner := some winnerId,
        status := GStatus.finished,
        endTime := some now },
     { winnerId := winnerId, winnerTime := formatMMSS winnerTime, loserTime := none })

/-- Embeds `GameConsumer.mark_game_abandoned`, preserving the statement
order of the Python body: the status is overwritten with `'abandoned'` and
`end_time` is set *first*; only then does the code test
`game.status in ['in_progress', 'ready']` to decide whether to synthesize
the forfeit `GameResult` and set the winner — the forfeit branch is
modelled faithfully even though the preceding assignment makes its guard
unsatisfiable. -/
def mark_game_abandoned (now : Nat) (s : Session) (leavingId : Nat) : Session :=
  let g : Session := { s with status := GStatus.abandoned, endTime := some now }
  if (g.status = GStatus.inProgress ∨ g.status = GStatus.ready) ∧
      g.player1.isSome ∧ g.player2.isSome then
    let pair : Option Nat × Option Nat :=
      if g.player1 = some leavingId then (g.player1, g.player2) else (g.player2, g.player1)
    match pair.2, pair.1 with
    | some rem, some lv =>
      { g with
          result := some
            { winner := rem, loser := some lv, winnerTime := 0, loserTime := none,
              difficulty := g.difficulty, resultType := "forfeit" },
          winner := some rem }
    | _, _ => g
  else g

/-- Embeds the state mutations of `GameConsumer.handle_join_game` for an
existing session: no player 1 yet means `add_player1` (status
`'waiting'`); an open second seat and a different user means
`add_player2` (status `'ready'`), then `start_game` (status
`'in_progress'`), then `set_start_time` (sets `start_time` and status
`'in_progress'` if `start_time` was unset); a seated player reconnecting,
or a full game, leaves the session unchanged. -/
def handle_join_game (now : Nat) (s : Session) (uid : Nat) : Session :=
  if s.player1 = none then
    { s with player1 := some uid, status := GStatus.waiting }
  else if s.player2 = none ∧ s.player1 ≠ some uid then
    let s1 := { s with player2 := some uid, status := GStatus.ready }
    let s2 := { s1 with status := GStatus.inProgress }
    if s2.startTime = none then
      { s2 with startTime := some now, status := GStatus.inProgress }
    else s2
  else s

/-- Reply of the completion handler: an `error` message leaving the race
running, or the broadcast `race_finished` payload. -/
inductive CompleteReply
  | incorrect
  | finished (payload : FinishPayload)
deriving DecidableEq, Repr

/-- Embeds `GameConsumer.handle_puzzle_complete`: re-verify the claimant's
stored board against the stored solution via `matches_solution`; on
mismatch reply with the error (no state change); otherwise finalize. -/
def handle_puzzle_complete (now : Nat) (s : Session) (uid : Nat) : Session × CompleteReply :=
  let board := get_player_board s uid
  if matches_solution board s.solution then
    let fr := finalize_result now s uid
    (fr.1, CompleteReply.finished fr.2)
  else (s, CompleteReply.incorrect)

/-- Embeds the state mutations of `GameConsumer.handle_move`: fetch the
player's board, validate with `SudokuPuzzle.is_valid_placement` (no clue
check), write the value into the player's board on success, then run the
automatic completion check (`matches_solution` on the updated board and
stored solution), which hands over to `handle_puzzle_complete`. -/
def handle_move (now : Nat) (s : Session) (uid row col value : Nat) : Session :=
  let current := get_player_board s uid
  if is_valid_placement current row col value then
    let newBoard := setCell current (9 * row + col) value
    let s1 := update_player_board s uid newBoard
    if matches_solution newBoard s1.solution then (handle_puzzle_complete now s1 uid).1
    else s1
  else s

/-! Section: Helper lemmas about completion checks -/

lemma getCell_emptyBoard (i : Nat) : getCell emptyBoard i = 0 := by
  unfold getCell emptyBoard
  rcases Nat.lt_or_ge i 81 with h | h
  · rw [List.getD_eq_getElem?_getD, List.getElem?_replicate]
    simp [h]
  · rw [List.getD_eq_default]
    simp [h]

lemma allFilled_false_of_zero {b : Board} {i : Nat} (hi : i < 81) (h0 : getCell b i = 0) :
    allFilled b = false := by
  apply Bool.eq_false_iff.mpr
  intro hall
  have := List.all_eq_true.mp hall i (List.mem_range.mpr hi)
  simp [h0] at this

lemma matches_solution_false_of_zero {b : Board} {sol : Option Board} {i : Nat}
    (hi : i < 81) (h0 : getCell b i = 0) : matches_solution b sol = false := by
  have hall := allFilled_false_of_zero hi h0
  cases sol with
  | none => simp [matches_solution, is_complete, hall]
  | some s =>
    by_cases he : s.isEmpty
    · simp [matches_solution, he, is_complete, hall]
    · simp [matches_solution, he, hall]

/-- C10.  `check_board_correct(board, solution)` compares only the
non-zero cells of `board` with `solution`: it is true exactly when every
filled cell agrees with the solution, so any board whose filled cells all
agree passes — in particular the all-zero board passes against every
solution, while `is_board_complete` rejects it: a progress check, not a
completion check. -/
theorem check_board_correct_is_progress_check :
    (∀ board solution : Board, check_board_correct board solution = true ↔
      (∀ i, i < 81 → getCell board i ≠ 0 → getCell board i = getCell solution i)) ∧
    (∀ solution : Board, check_board_correct emptyBoard solution = true) ∧
    is_board_complete emptyBoard = false := by
  refine ⟨?_, ?_, ?_⟩
  · intro board solution
    rw [check_board_correct, List.all_eq_true]
    constructor
    · intro h i hi hnz
      have := h i (List.mem_range.mpr hi)
      rcases Bool.or_eq_true_iff.mp this with h0 | he
      · exact absurd (Nat.beq_eq_true_eq .. ▸ h0 : getCell board i = 0) hnz
      · exact Nat.beq_eq_true_eq .. ▸ he
    · intro h i hi
      rw [List.mem_range] at hi
      by_cases h0 : getCell board i = 0
      · simp [h0]
      · simp [h i hi h0]
  · intro solution
    rw [check_board_correct, List.all_eq_true]
    intro i _
    simp [getCell_emptyBoard]
  · have := allFilled_false_of_zero (b := emptyBoard) (i := 0) (by omega) (getCell_emptyBoard 0)
    rw [is_board_complete]
    rw [allFilled] at this
    exact this

/-- C9.  When a `SudokuPuzzle` carries no stored solution (`None`, or the
falsy empty list, e.g. built via `from_dict` without a `'solution'` key),
`matches_solution` falls back to `is_complete`, so *any* fully-filled
valid Sudoku board is accepted as a win — not only the board equal to the
originally generated solution: the grid `solW2` differs from `solW` yet is
accepted when no solution is stored, while it is rejected when `solW` is
the stored solution. -/
theorem matches_solution_fallback_accepts_any_valid_board :
    (∀ b : Board, matches_solution b none = true ↔
      (allFilled b = true ∧ is_valid_solution b = true)) ∧
    (∀ b : Board, matches_solution b (some []) = true ↔
      (allFilled b = true ∧ is_valid_solution b = true)) ∧
    from_dict (some solW2) none = (solW2, none) ∧
    matches_solution solW2 none = true ∧
    solW2 ≠ solW ∧
    matches_solution solW2 (some solW) = false := by
  refine ⟨?_, ?_, rfl, by decide, by decide, by decide⟩
  · intro b
    simp [matches_solution, is_complete]
  · intro b
    simp [matches_solution, is_complete, List.isEmpty]

/-! Section: Claim theorems about the puzzle engine's placement check -/

/-- Counterexample board for the claimed placement semantics: cell (0,0)
holds 5 and 5 appears nowhere else on the board. -/
def cexBoardC6 : Board := 5 :: List.replicate 80 0

/-- C6 counterexample.  The claim says `is_valid_placement` excludes the
cell `(row, col)` itself from the comparison, so re-validating the value a
cell already holds should return `true` when it conflicts nowhere else.
On `cexBoardC6` the value 5 is in range, `(0,0)` is in bounds, and 5
appears at no *other* cell of row 0, column 0, or the top-left box — yet
`is_valid_placement` returns `false`, because the scan includes the cell
itself. -/
theorem is_valid_placement_cell_not_excluded :
    is_valid_placement cexBoardC6 0 0 5 = false ∧
    (1 ≤ 5 ∧ 5 ≤ 9 ∧ 0 < 9 ∧ 0 < 9) ∧
    (∀ c, c < 9 → c ≠ 0 → getRC cexBoardC6 0 c ≠ 5) ∧
    (∀ r, r < 9 → r ≠ 0 → getRC cexBoardC6 r 0 ≠ 5) ∧
    (∀ k, k < 9 → k ≠ 0 → getRC cexBoardC6 (k / 3) (k % 3) ≠ 5) := by
  decide

/-- C6 (amended).  `is_valid_placement(board, row, col, value)` returns
`true` iff `value` is in `1..9`, `(row, col)` is in bounds, and `value`
appears nowhere in that row, that column, or that 3×3 box — *including*
the cell `(row, col)` itself, so re-validating a value the cell already
holds returns `false`. -/
theorem is_valid_placement_iff (b : Board) (r c v : Nat) :
    is_valid_placement b r c v = true ↔
      (r < 9 ∧ c < 9 ∧ 1 ≤ v ∧ v ≤ 9 ∧
        (∀ c', c' < 9 → getRC b r c' ≠ v) ∧
        (∀ r', r' < 9 → getRC b r' c ≠ v) ∧
        (∀ k, k < 9 → getRC b (3 * (r / 3) + k / 3) (3 * (c / 3) + k % 3) ≠ v)) := by
  unfold is_valid_placement
  simp only [Bool.and_eq_true, decide_eq_true_eq, is_valid_move_eq_true]
  constructor
  · rintro ⟨⟨⟨⟨h1, h2⟩, h3⟩, h4⟩, hrow, hcol, hbox⟩
    refine ⟨h1, h2, h3, h4, ?_, ?_, ?_⟩
    · intro c' hc' heq
      have : inRow b r v = true := (inRow_iff ..).mpr ⟨c', hc', heq⟩
      rw [this] at hrow
      exact Bool.true_eq_false ▸ hrow
    · intro r' hr' heq
      have : inCol b c v = true := (inCol_iff ..).mpr ⟨r', hr', heq⟩
      rw [this] at hcol
      exact Bool.true_eq_false ▸ hcol
    · intro k hk heq
      have : inBox b r c v = true := (inBox_iff ..).mpr ⟨k, hk, heq⟩
      rw [this] at hbox
      exact Bool.true_eq_false ▸ hbox
  · rintro ⟨h1, h2, h3, h4, hrow, hcol, hbox⟩
    refine ⟨⟨⟨⟨h1, h2⟩, h3⟩, h4⟩, ?_, ?_, ?_⟩
    · cases hcase : inRow b r v with
      | false => rfl
      | true =>
        obtain ⟨c', hc', heq⟩ := (inRow_iff ..).mp hcase
        exact absurd heq (hrow c' hc')
    · cases hcase : inCol b c v with
      | false => rfl
      | true =>
        obtain ⟨r', hr', heq⟩ := (inCol_iff ..).mp hcase
        exact absurd heq (hcol r' hr')
    · cases hcase : inBox b r c v with
      | false => rfl
      | true =>
        obtain ⟨k, hk, heq⟩ := (inBox_iff ..).mp hcase
        exact absurd heq (hbox k hk)

/-! Section: Claim theorems about the race-session operations -/

/-- C1.  At most one `GameResult` ever exists per session (the `result`
field), and calling `finalize_result` a second time — for the same or the
other participant, at any later time — returns the already-existing
result unchanged rather than erroring or creating a second one: after any
first call a result exists, and every further call leaves the session
exactly as it was and returns the payload formatted from that stored
result.  Concurrent invocations serialize through the
`select_for_update` row lock, so they are covered by the sequential
composition proved here. -/
theorem finalize_result_idempotent (s : Session) (w w' now now' : Nat) :
    ∃ r : GameResult,
      ((finalize_result now s w).1).result = some r ∧
      finalize_result now' (finalize_result now s w).1 w' =
        ((finalize_result now s w).1,
          { winnerId := r.winner, winnerTime := formatMMSS r.winnerTime,
            loserTime := r.loserTime }) := by
  cases hres : s.result with
  | some r0 =>
    refine ⟨r0, ?_, ?_⟩
    · simp [finalize_result, hres]
    · simp [finalize_result, hres]
  | none =>
    refine ⟨{ winner := w,
              loser := if s.player1 = some w then s.player2 else s.player1,
              winnerTime := match s.startTime with
                | some st => now - st
                | none => 0,
              loserTime := none, difficulty := s.difficulty,
              resultType := "completion" }, ?_, ?_⟩
    · simp [finalize_result, hres]
    · simp [finalize_result, hres]

/-- Session used as C2's failing input: both players seated, race in
progress, no result yet. -/
def sessionC2 : Session :=
  { player1 := some 1, player2 := some 2, status := GStatus.inProgress,
    startTime := some 10, endTime := none, winner := none,
    puzzle := remove_cells [0, 1, 2] solW, solution := some solW,
    board1 := remove_cells [0, 1, 2] solW, board2 := remove_cells [0, 1, 2] solW,
    difficulty := "medium", result := none }

/-- C2 (code bug).  For a session with both participants and status
IN_PROGRESS when a participant leaves, `mark_game_abandoned` does set
status ABANDONED and `end_time` — but it never synthesizes the forfeit
`GameResult` and never sets the winner, because the Python body assigns
`game.status = 'abandoned'` *before* testing
`game.status in ['in_progress', 'ready']`, so the forfeit branch is
unreachable: the result and winner fields are returned untouched. -/
theorem mark_game_abandoned_never_creates_forfeit (now : Nat) (s : Session)
    (leavingId : Nat) (h1 : s.player1.isSome) (h2 : s.player2.isSome)
    (hst : s.status = GStatus.inProgress) :
    (mark_game_abandoned now s leavingId).status = GStatus.abandoned ∧
    (mark_game_abandoned now s leavingId).endTime = some now ∧
    (mark_game_abandoned now s leavingId).result = s.result ∧
    (mark_game_abandoned now s leavingId).winner = s.winner := by
  simp [mark_game_abandoned]

theorem mark_game_abandoned_never_creates_forfeit_witness :
    (mark_game_abandoned 50 sessionC2 2).status = GStatus.abandoned ∧
    (mark_game_abandoned 50 sessionC2 2).endTime = some 50 ∧
    (mark_game_abandoned 50 sessionC2 2).result = sessionC2.result ∧
    (mark_game_abandoned 50 sessionC2 2).winner = sessionC2.winner :=
  mark_game_abandoned_never_creates_forfeit 50 sessionC2 2 (by decide) (by decide) (by decide)

/-- Session used as C3's witness: one seated participant, status WAITING. -/
def sessionC3 : Session :=
  { player1 := some 1, player2 := none, status := GStatus.waiting,
    startTime := none, endTime := none, winner := none,
    puzzle := remove_cells [0, 1, 2] solW, solution := some solW,
    board1 := remove_cells [0, 1, 2] solW, board2 := remove_cells [0, 1, 2] solW,
    difficulty := "medium", result := none }

/-- C3.  For a session with exactly one seated participant (status
WAITING, no start time), accepting a join by a different participant
assigns the second slot and, in the same operation, sets the start time
to the current time and status to IN_PROGRESS: the state
`handle_join_game` returns is already started. -/
theorem handle_join_game_auto_starts (now : Nat) (s : Session) (uid p : Nat)
    (h1 : s.player1 = some p) (hne : p ≠ uid) (h2 : s.player2 = none)
    (hw : s.status = GStatus.waiting) (hs : s.startTime = none) :
    (handle_join_game now s uid).player1 = some p ∧
    (handle_join_game now s uid).player2 = some uid ∧
    (handle_join_game now s uid).status = GStatus.inProgress ∧
    (handle_join_game now s uid).startTime = some now := by
  have hp1 : ¬s.player1 = none := by
    rw [h1]
    exact Option.some_ne_none p
  have hne' : ¬s.player1 = some uid := by
    rw [h1]
    intro h
    exact hne (Option.some.inj h)
  simp [handle_join_game, hp1, h2, hne', h1, hs, hne]

theorem handle_join_game_auto_starts_witness :
    (handle_join_game 7 sessionC3 2).player1 = some 1 ∧
    (handle_join_game 7 sessionC3 2).player2 = some 2 ∧
    (handle_join_game 7 sessionC3 2).status = GStatus.inProgress ∧
    (handle_join_game 7 sessionC3 2).startTime = some 7 :=
  handle_join_game_auto_starts 7 sessionC3 2 1 (by decide) (by decide) (by decide)
    (by decide) (by decide)

/-- Session used as C4's witness: race in progress, player 1's board does
not match the stored solution (it still has empty cells). -/
def sessionC4 : Session :=
  { player1 := some 1, player2 := some 2, status := GStatus.inProgress,
    startTime := some 10, endTime := none, winner := none,
    puzzle := remove_cells [3, 4, 5] solW, solution := some solW,
    board1 := remove_cells [3, 4, 5] solW, board2 := remove_cells [3, 4, 5] solW,
    difficulty := "medium", result := none }

/-- C4.  For an IN_PROGRESS session, submitting a board that does not
exactly match the stored solution to the completion handler fails with
the incorrect-solution error: the handler returns the session completely
unchanged (so no `GameResult` is created, status remains IN_PROGRESS, and
every other field keeps its value).  In particular any board with an
empty cell fails the match, whatever the stored solution is. -/
theorem handle_puzzle_complete_incorrect_rejected (now : Nat) (s : Session) (uid : Nat)
    (hip : s.status = GStatus.inProgress)
    (hm : matches_solution (get_player_board s uid) s.solution = false) :
    handle_puzzle_complete now s uid = (s, CompleteReply.incorrect) ∧
    (handle_puzzle_complete now s uid).1.status = GStatus.inProgress ∧
    (handle_puzzle_complete now s uid).1.result = s.result ∧
    (∀ b : Board, ∀ sol : Option Board, ∀ i, i < 81 → getCell b i = 0 →
      matches_solution b sol = false) := by
  refine ⟨?_, ?_, ?_, ?_⟩
  · simp [handle_puzzle_complete, hm]
  · simp [handle_puzzle_complete, hm, hip]
  · simp [handle_puzzle_complete, hm]
  · intro b sol i hi h0
    exact matches_solution_false_of_zero hi h0

theorem handle_puzzle_complete_incorrect_rejected_witness :
    handle_puzzle_complete 42 sessionC4 1 = (sessionC4, CompleteReply.incorrect) ∧
    (handle_puzzle_complete 42 sessionC4 1).1.status = GStatus.inProgress ∧
    (handle_puzzle_complete 42 sessionC4 1).1.result = sessionC4.result ∧
    (∀ b : Board, ∀ sol : Option Board, ∀ i, i < 81 → getCell b i = 0 →
      matches_solution b sol = false) :=
  handle_puzzle_complete_incorrect_rejected 42 sessionC4 1 (by decide) (by decide)

/-- Session used as C5's failing input: the generated clue at cell (0,0)
is `solW`'s 1; both players' boards are seeded from the clues; the race
is in progress. -/
def sessionC5 : Session :=
  { player1 := some 1, player2 := some 2, status := GStatus.inProgress,
    startTime := some 0, endTime := none, winner := none,
    puzzle := 1 :: List.replicate 80 0, solution := some solW,
    board1 := 1 :: List.replicate 80 0, board2 := 1 :: List.replicate 80 0,
    difficulty := "medium", result := none }

/-- C5 (code bug).  The live move-handling path (`handle_move`) never
consults the clue grid: a move targeting the clue cell (0,0) — where
`clues[0][0] = 1 ≠ 0` — with a different, non-conflicting value 3 passes
`is_valid_placement` on the player's own board and overwrites the clue,
so the participant's board is changed and the clue cell is not protected
(the ClueCell rejection exists only in the unused
`GameStateManager.validate_move`). -/
theorem handle_move_overwrites_clue_cell :
    getRC sessionC5.puzzle 0 0 = 1 ∧
    is_valid_placement (get_player_board sessionC5 1) 0 0 3 = true ∧
    getRC (get_player_board (handle_move 5 sessionC5 1 0 0 3) 1) 0 0 = 3 := by
  decide

/-! Section: Claim theorems about the puzzle generator -/

/-- C7.  Every puzzle produced by `generate_puzzle` satisfies: each
non-zero cell of the clue grid equals the corresponding cell of the
solution, and the solution passes the full-board validity check
`_is_valid_solution` — for every stream of shuffles (each a permutation
of `1..9`) and every choice of cells to clear. -/
theorem generate_puzzle_invariants (rand : Nat → List Nat) (positions : List Nat)
    (hr : ∀ t, (rand t).Perm perm9) :
    (∀ i, i < 81 → getCell (generate_puzzle rand positions).1 i ≠ 0 →
      getCell (generate_puzzle rand positions).1 i =
        getCell (generate_puzzle rand positions).2 i) ∧
    is_valid_solution (generate_puzzle rand positions).2 = true := by
  obtain ⟨b, hb, hf, hv⟩ := solver_from_empty rand hr 0
  have h2 : (generate_puzzle rand positions).2 = b := by
    simp only [generate_puzzle, generate_full_solution, hb]
  have h1 : (generate_puzzle rand positions).1 = remove_cells positions b := by
    simp only [generate_puzzle, generate_full_solution, hb]
  rw [h1, h2]
  exact ⟨fun i hi hnz => remove_cells_agree positions b i hnz, hv⟩

theorem generate_puzzle_invariants_witness :
    (∀ i, i < 81 → getCell (generate_puzzle (fun _ => perm9) [0, 1, 2]).1 i ≠ 0 →
      getCell (generate_puzzle (fun _ => perm9) [0, 1, 2]).1 i =
        getCell (generate_puzzle (fun _ => perm9) [0, 1, 2]).2 i) ∧
    is_valid_solution (generate_puzzle (fun _ => perm9) [0, 1, 2]).2 = true :=
  generate_puzzle_invariants (fun _ => perm9) [0, 1, 2] (fun _ => List.Perm.refl perm9)

/-- C8.  The randomized backtracking generator, started from the empty
9×9 grid, always succeeds — for every sequence of random shuffles (each a
permutation of `1..9`) and every starting shuffle index — and the board
it returns is completely filled and a valid solution.  (Termination is
built in: the embedded recursion is total, with fuel 82 strictly
exceeding the 81-deep recursion of the Python function.) -/
theorem generate_full_solution_total (rand : Nat → List Nat)
    (hr : ∀ t, (rand t).Perm perm9) (t₀ : Nat) :
    ∃ b t', generate_full_solution rand t₀ = (some b, t') ∧
      filledAll b ∧ is_valid_solution b = true := by
  obtain ⟨b, hb, hf, hv⟩ := solver_from_empty rand hr t₀
  refine ⟨b, (solveAux rand 82 t₀ emptyBoard).2, ?_, hf, hv⟩
  unfold generate_full_solution
  rw [← hb]

theorem generate_full_solution_total_witness :
    ∃ b t', generate_full_solution (fun _ => perm9) 0 = (some b, t') ∧
      filledAll b ∧ is_valid_solution b = true :=
  generate_full_solution_total (fun _ => perm9) (fun _ => List.Perm.refl perm9) 0
